import Mathlib

/-!
Verification development for the phala-cloud-sdk repository.

The pure logic of the SDK is shallowly embedded here:
* `src/src/utils/crypto.ts` — hex codec and `encryptSecrets` (the external
  X25519 / AES-GCM primitives from noble-curves and WebCrypto are abstract
  parameters of the embedding; everything the repository itself computes —
  hex decoding and encoding, JSON serialization of the env list, the
  payload layout — is modelled concretely);
* `src/core/phala-cloud.ts` — the teepod resolution slice of `deploy`,
  `parseEnv`, `monitorDeploymentStatus`, and the encrypted-env assembly of
  `upgrade` / `updateCompose`;
* `src/core/api-client.ts` — `executeWithRetry`.

JavaScript strings are modelled as Lean `String` / `List Char`; where byte
sequences matter (UTF-8 plaintext, Uint8Array contents) they are `List Nat`.
-/

namespace PhalaSdk

/-! ## Characters and hex digits -/

/-- Value of a hex digit codepoint (`0-9`, `a-f`, `A-F`), `none` otherwise. -/
def hexValCp (n : Nat) : Option Nat :=
  if 48 ≤ n ∧ n ≤ 57 then some (n - 48)
  else if 97 ≤ n ∧ n ≤ 102 then some (n - 87)
  else if 65 ≤ n ∧ n ≤ 70 then some (n - 55)
  else none

/-- Value of a hex digit character. -/
def hexCharVal (c : Char) : Option Nat := hexValCp c.toNat

/-- Lowercase hex digit character for a value below 16 (as produced by the
JavaScript `Number.prototype.toString(16)` on a digit). -/
def hexDigitChar (m : Nat) : Char :=
  if m < 10 then Char.ofNat (48 + m) else Char.ofNat (87 + m)

/-! ## `hexToUint8Array` (src/src/utils/crypto.ts, lines 9-21)

`parseInt(s, 16)` is modelled faithfully for the two-character substrings the
source feeds it: optional leading whitespace, an optional sign, an optional
`0x`/`0X` marker, then the longest run of hex digits (`NaN`, modelled as
`none`, when that run is empty). The `Uint8Array` store applies `ToUint8`,
i.e. the value modulo 256 with `NaN` becoming `0`. -/

/-- JavaScript whitespace characters relevant to `parseInt` input skipping. -/
def jsWhitespace (c : Char) : Bool :=
  c.toNat = 32 ∨ c.toNat = 9 ∨ c.toNat = 10 ∨ c.toNat = 11 ∨ c.toNat = 12 ∨
    c.toNat = 13 ∨ c.toNat = 160 ∨ c.toNat = 65279

/-- Accumulate the longest leading run of hex digits. -/
def parseHexDigits : List Char → Nat → Nat
  | [], acc => acc
  | c :: r, acc =>
    match hexCharVal c with
    | some v => parseHexDigits r (acc * 16 + v)
    | none => acc

/-- Longest leading run of hex digits; `none` when there is no leading digit
(`parseInt` returns `NaN` then). -/
def parseHexRun (cs : List Char) : Option Nat :=
  match cs with
  | c :: _ =>
    match hexCharVal c with
    | some _ => some (parseHexDigits cs 0)
    | none => none
  | [] => none

/-- Drop an optional `0x` / `0X` marker (radix-16 `parseInt` accepts it). -/
def dropHexMarker (l : List Char) : List Char :=
  match l with
  | c1 :: c2 :: r => if c1 = '0' ∧ (c2 = 'x' ∨ c2 = 'X') then r else l
  | _ => l

/-- Model of `parseInt(s, 16)`; `none` is `NaN`. -/
def jsParseIntHex (s : List Char) : Option Int :=
  let cs := s.dropWhile jsWhitespace
  match cs with
  | [] => none
  | c :: r =>
    if c = '-' then (parseHexRun (dropHexMarker r)).map (fun n => -(n : Int))
    else if c = '+' then (parseHexRun (dropHexMarker r)).map (fun n => (n : Int))
    else (parseHexRun (dropHexMarker (c :: r))).map (fun n => (n : Int))

/-- `ToUint8` of a `parseInt` result: `NaN` stores 0, otherwise modulo 256. -/
def jsToUint8 (v : Option Int) : Nat :=
  match v with
  | none => 0
  | some i => (i % 256).toNat

/-- The decode loop of `hexToUint8Array`: each two-character substring goes
through `parseInt(·, 16)` and is stored into the `Uint8Array`. -/
def decodePairs : List Char → List Nat
  | c1 :: c2 :: rest => jsToUint8 (jsParseIntHex [c1, c2]) :: decodePairs rest
  | _ => []

/-- Strip a leading lowercase `0x` (the source checks `hex.startsWith('0x')`). -/
def strip0x (l : List Char) : List Char :=
  match l with
  | c1 :: c2 :: r => if c1 = '0' ∧ c2 = 'x' then r else l
  | _ => l

/-- `hexToUint8Array` from src/src/utils/crypto.ts: strip an optional `0x`,
reject an odd-length string, then decode two characters at a time. -/
def hexToUint8Array (hex : String) : Except String (List Nat) :=
  let h := strip0x hex.data
  if h.length % 2 ≠ 0 then .error "不是有效的16进制字符串"
  else .ok (decodePairs h)

/-! ## `uint8ArrayToHex` (src/src/utils/crypto.ts, lines 28-32) -/

/-- One byte printed as `b.toString(16).padStart(2, '0')`; bytes read from a
`Uint8Array` are below 256. -/
def byteToHex (b : Nat) : List Char :=
  [hexDigitChar (b / 16), hexDigitChar (b % 16)]

/-- `uint8ArrayToHex` from src/src/utils/crypto.ts. -/
def uint8ArrayToHex (bytes : List Nat) : String :=
  ⟨bytes.foldr (fun b acc => byteToHex b ++ acc) []⟩

/-! ## Hex codec lemmas -/

theorem hexDigitChar_val : ∀ m < 16, hexCharVal (hexDigitChar m) = some m := by decide

theorem hexDigitChar_not_ws : ∀ m < 16, jsWhitespace (hexDigitChar m) = false := by decide

theorem hexDigitChar_ne : ∀ m < 16, hexDigitChar m ≠ '-' ∧ hexDigitChar m ≠ '+' ∧
    hexDigitChar m ≠ 'x' ∧ hexDigitChar m ≠ 'X' := by decide

theorem jsParseIntHex_byteToHex (b : Nat) (hb : b < 256) :
    jsParseIntHex (byteToHex b) = some (b : Int) := by
  have h1 : b / 16 < 16 := by omega
  have h2 : b % 16 < 16 := by omega
  have hv1 := hexDigitChar_val _ h1
  have hv2 := hexDigitChar_val _ h2
  have hw1 := hexDigitChar_not_ws _ h1
  have hne1 := hexDigitChar_ne _ h1
  have hne2 := hexDigitChar_ne _ h2
  have hval : (0 * 16 + b / 16) * 16 + b % 16 = b := by omega
  simp only [byteToHex, jsParseIntHex, List.dropWhile_cons, hw1, Bool.false_eq_true,
    if_false, hne1.1, hne1.2.1, if_neg, dropHexMarker, hne2.2.2.1, hne2.2.2.2,
    or_self, and_false, parseHexRun, hv1, parseHexDigits, hv2, hval]
  rfl

theorem decodePairs_hexChars (bs : List Nat) (h : ∀ b ∈ bs, b < 256) :
    decodePairs (bs.foldr (fun b acc => byteToHex b ++ acc) []) = bs := by
  induction bs with
  | nil => rfl
  | cons b t ih =>
    have hb : b < 256 := h b (by simp)
    have ht : ∀ x ∈ t, x < 256 := fun x hx => h x (by simp [hx])
    have hshape : (b :: t).foldr (fun b acc => byteToHex b ++ acc) [] =
        hexDigitChar (b / 16) :: hexDigitChar (b % 16) ::
          t.foldr (fun b acc => byteToHex b ++ acc) [] := rfl
    rw [hshape, decodePairs,
      show [hexDigitChar (b / 16), hexDigitChar (b % 16)] = byteToHex b from rfl,
      jsParseIntHex_byteToHex b hb]
    simp only [jsToUint8]
    congr 1
    · omega
    · exact ih ht

theorem length_hexChars (bs : List Nat) :
    (bs.foldr (fun b acc => byteToHex b ++ acc) []).length = 2 * bs.length := by
  induction bs with
  | nil => rfl
  | cons b t ih =>
    have hshape : (b :: t).foldr (fun b acc => byteToHex b ++ acc) [] =
        hexDigitChar (b / 16) :: hexDigitChar (b % 16) ::
          t.foldr (fun b acc => byteToHex b ++ acc) [] := rfl
    rw [hshape]
    simp only [List.length_cons, ih]
    omega

theorem hexToUint8Array_uint8ArrayToHex (bs : List Nat) (h : ∀ b ∈ bs, b < 256) :
    hexToUint8Array (uint8ArrayToHex bs) = .ok bs := by
  have hdata : (uint8ArrayToHex bs).data = bs.foldr (fun b acc => byteToHex b ++ acc) [] := rfl
  have hstrip : strip0x (uint8ArrayToHex bs).data = (uint8ArrayToHex bs).data := by
    rw [hdata]
    cases bs with
    | nil => rfl
    | cons b t =>
      have h2 : b % 16 < 16 := by omega
      have hne2 := hexDigitChar_ne _ h2
      simp only [List.foldr_cons, byteToHex, List.cons_append, List.nil_append, strip0x]
      rw [if_neg (fun hcontra => hne2.2.2.1 hcontra.2)]
  rw [hexToUint8Array, hstrip, hdata, if_neg (by rw [length_hexChars]; omega),
    decodePairs_hexChars bs h]

/-! ## JSON serialization of the env list

`encryptSecrets` encrypts `new TextEncoder().encode(JSON.stringify({env: envs}))`.
Strings are handled at the level of their codepoint sequences (`List Nat`);
`escCp` is the `JSON.stringify` string-escaping rule (quote, backslash, the
short control escapes, `\u00xx` for remaining control characters). -/

/-- Environment variable pair (src/src/types/index.ts, interface `Env`). -/
structure Env where
  key : String
  value : String
deriving DecidableEq, Repr

/-- Codepoints of a string. -/
def str2cp (s : String) : List Nat := s.data.map Char.toNat

/-- Lowercase hex digit codepoint for a value below 16. -/
def hexDigitCp (m : Nat) : Nat := if m < 10 then 48 + m else 87 + m

/-- `JSON.stringify` escaping of one string codepoint. -/
def escCp (n : Nat) : List Nat :=
  if n = 34 then [92, 34]
  else if n = 92 then [92, 92]
  else if n < 32 then
    if n = 8 then [92, 98]
    else if n = 9 then [92, 116]
    else if n = 10 then [92, 110]
    else if n = 12 then [92, 102]
    else if n = 13 then [92, 114]
    else [92, 117, 48, 48, hexDigitCp (n / 16), hexDigitCp (n % 16)]
  else [n]

/-- Escape a whole string (codepoint list). -/
def escStr (s : List Nat) : List Nat := s.foldr (fun c acc => escCp c ++ acc) []

/-- Serialized form of one `Env` entry. -/
def serializeEnvCp (e : Env) : List Nat :=
  str2cp "\x7b\"key\":\"" ++ escStr (str2cp e.key) ++ [34] ++
    str2cp ",\"value\":\"" ++ escStr (str2cp e.value) ++ [34, 125]

/-- Tail of the serialized env array after the first entry: each further
entry is preceded by a comma, and the array and object are closed. -/
def serObjsTail : List Env → List Nat
  | [] => [93, 125]
  | e :: es => 44 :: (serializeEnvCp e ++ serObjsTail es)

/-- Codepoints of `JSON.stringify service of the env wrapper object`:
the object `\x7b"env":[...]\x7d` with the entries comma-separated. -/
def serializeEnvsCp (envs : List Env) : List Nat :=
  str2cp "\x7b\"env\":[" ++
    (match envs with
     | [] => [93, 125]
     | e :: es => serializeEnvCp e ++ serObjsTail es)

/-! ## JSON parsing (test-only decode direction)

A small executable parser for exactly the grammar the serializer emits,
used by the decrypt helper modelled from the spec. -/

/-- Decode a `\u00xx`-style four-hex-digit escape body. -/
def unescapeU : List Nat → Option (Nat × List Nat)
  | d1 :: d2 :: d3 :: d4 :: r =>
    match hexValCp d1, hexValCp d2, hexValCp d3, hexValCp d4 with
    | some v1, some v2, some v3, some v4 => some (v1 * 4096 + v2 * 256 + v3 * 16 + v4, r)
    | _, _, _, _ => none
  | _ => none

/-- Decode the escape following a backslash: the decoded codepoint and the
remaining input. -/
def unescape1 : List Nat → Option (Nat × List Nat)
  | [] => none
  | e :: r =>
    if e = 34 then some (34, r)
    else if e = 92 then some (92, r)
    else if e = 98 then some (8, r)
    else if e = 116 then some (9, r)
    else if e = 110 then some (10, r)
    else if e = 102 then some (12, r)
    else if e = 114 then some (13, r)
    else if e = 117 then unescapeU r
    else none

theorem unescapeU_len {l : List Nat} {p : Nat × List Nat} (h : unescapeU l = some p) :
    p.2.length + 4 = l.length := by
  match l with
  | [] => simp [unescapeU] at h
  | [d1] => simp [unescapeU] at h
  | [d1, d2] => simp [unescapeU] at h
  | [d1, d2, d3] => simp [unescapeU] at h
  | d1 :: d2 :: d3 :: d4 :: r =>
    simp only [unescapeU] at h
    split at h
    · cases h; simp
    · cases h

theorem unescape1_len {l : List Nat} {p : Nat × List Nat} (h : unescape1 l = some p) :
    p.2.length < l.length := by
  match l with
  | [] => simp [unescape1] at h
  | e :: r =>
    simp only [unescape1] at h
    split_ifs at h
    all_goals first
      | (cases h; simp)
      | (have h2 := unescapeU_len h; simp at h2 ⊢; omega)

/-- Parse a JSON string body up to its closing quote; returns the unescaped
codepoints and the remaining input. -/
def parseJsonStr : List Nat → Option (List Nat × List Nat)
  | [] => none
  | c :: rest =>
    if c = 34 then some ([], rest)
    else if c = 92 then
      match h : unescape1 rest with
      | some (d, rest2) => (parseJsonStr rest2).map (fun p => (d :: p.1, p.2))
      | none => none
    else (parseJsonStr rest).map (fun p => (c :: p.1, p.2))
termination_by l => l.length
decreasing_by
  · have h2 := unescape1_len h
    simp at h2 ⊢
    omega
  · simp

/-- Expect a literal codepoint sequence and return the rest of the input. -/
def expectLit : List Nat → List Nat → Option (List Nat)
  | [], input => some input
  | _ :: _, [] => none
  | l :: ls, c :: cs => if c = l then expectLit ls cs else none

/-- Parse one serialized `Env` entry object. -/
def parseEnvObj (input : List Nat) : Option ((List Nat × List Nat) × List Nat) :=
  match expectLit (str2cp "\x7b\"key\":\"") input with
  | none => none
  | some i1 =>
    match parseJsonStr i1 with
    | none => none
    | some (k, i2) =>
      match expectLit (str2cp ",\"value\":\"") i2 with
      | none => none
      | some i3 =>
        match parseJsonStr i3 with
        | none => none
        | some (v, i4) =>
          match expectLit [125] i4 with
          | none => none
          | some i5 => some ((k, v), i5)

/-- Parse the remaining entries (each preceded by a comma) and the closing
`]` and `\x7d`; the whole input must be consumed. -/
def parseMoreObjs : Nat → List Nat → Option (List (List Nat × List Nat))
  | _, [93, 125] => some []
  | fuel + 1, 44 :: r =>
    match parseEnvObj r with
    | some (e, r') => (parseMoreObjs fuel r').map (fun es => e :: es)
    | none => none
  | _, _ => none

/-- Parse the codepoints of `JSON.stringify` of the env wrapper back into the
key/value codepoint pairs. -/
def parseEnvsJson (input : List Nat) : Option (List (List Nat × List Nat)) :=
  match expectLit (str2cp "\x7b\"env\":[") input with
  | none => none
  | some r =>
    match r with
    | 93 :: r2 => if r2 = [125] then some [] else none
    | _ =>
      match parseEnvObj r with
      | some (e, r') => (parseMoreObjs input.length r').map (fun es => e :: es)
      | none => none

/-- Key/value codepoint pairs of an env list; this is what the test-only
decode direction recovers. -/
def envCps (envs : List Env) : List (List Nat × List Nat) :=
  envs.map (fun e => (str2cp e.key, str2cp e.value))

/-! ## JSON roundtrip lemmas -/

theorem hexValCp_hexDigitCp : ∀ m < 16, hexValCp (hexDigitCp m) = some m := by decide

theorem parseJsonStr_quote (rest : List Nat) : parseJsonStr (34 :: rest) = some ([], rest) := by
  rw [parseJsonStr.eq_def]
  simp

theorem parseJsonStr_backslash {rest : List Nat} {d : Nat} {rest2 : List Nat}
    (h : unescape1 rest = some (d, rest2)) :
    parseJsonStr (92 :: rest) = (parseJsonStr rest2).map (fun p => (d :: p.1, p.2)) := by
  rw [parseJsonStr.eq_def]
  simp only [show ¬((92 : Nat) = 34) by decide, if_false, reduceIte]
  split
  next d2 rest3 heq =>
    rw [h] at heq
    cases heq
    rfl
  next heq =>
    rw [h] at heq
    cases heq

theorem parseJsonStr_other {c : Nat} (rest : List Nat) (h34 : c ≠ 34) (h92 : c ≠ 92) :
    parseJsonStr (c :: rest) = (parseJsonStr rest).map (fun p => (c :: p.1, p.2)) := by
  rw [parseJsonStr.eq_def]
  simp [h34, h92]

theorem parseJsonStr_escStr (s rest : List Nat) :
    parseJsonStr (escStr s ++ 34 :: rest) = some (s, rest) := by
  induction s with
  | nil => simpa [escStr] using parseJsonStr_quote rest
  | cons c s ih =>
    have hshape : escStr (c :: s) ++ 34 :: rest = escCp c ++ (escStr s ++ 34 :: rest) := by
      show (escCp c ++ escStr s) ++ 34 :: rest = _
      simp [List.append_assoc]
    rw [hshape]
    by_cases h34 : c = 34
    · subst h34
      have hu : unescape1 (34 :: (escStr s ++ 34 :: rest)) =
          some (34, escStr s ++ 34 :: rest) := by simp [unescape1]
      rw [show escCp 34 ++ (escStr s ++ 34 :: rest) = 92 :: 34 :: (escStr s ++ 34 :: rest)
          from rfl,
        parseJsonStr_backslash hu, ih]
      rfl
    · by_cases h92 : c = 92
      · subst h92
        have hu : unescape1 (92 :: (escStr s ++ 34 :: rest)) =
            some (92, escStr s ++ 34 :: rest) := by simp [unescape1]
        rw [show escCp 92 ++ (escStr s ++ 34 :: rest) = 92 :: 92 :: (escStr s ++ 34 :: rest)
            from rfl,
          parseJsonStr_backslash hu, ih]
        rfl
      · by_cases hlt : c < 32
        · by_cases h8 : c = 8
          · subst h8
            have hu : unescape1 (98 :: (escStr s ++ 34 :: rest)) =
                some (8, escStr s ++ 34 :: rest) := by simp [unescape1]
            rw [show escCp 8 ++ (escStr s ++ 34 :: rest) = 92 :: 98 :: (escStr s ++ 34 :: rest)
                from rfl,
              parseJsonStr_backslash hu, ih]
            rfl
          · by_cases h9 : c = 9
            · subst h9
              have hu : unescape1 (116 :: (escStr s ++ 34 :: rest)) =
                  some (9, escStr s ++ 34 :: rest) := by simp [unescape1]
              rw [show escCp 9 ++ (escStr s ++ 34 :: rest) =
                  92 :: 116 :: (escStr s ++ 34 :: rest) from rfl,
                parseJsonStr_backslash hu, ih]
              rfl
            · by_cases h10 : c = 10
              · subst h10
                have hu : unescape1 (110 :: (escStr s ++ 34 :: rest)) =
                    some (10, escStr s ++ 34 :: rest) := by simp [unescape1]
                rw [show escCp 10 ++ (escStr s ++ 34 :: rest) =
                    92 :: 110 :: (escStr s ++ 34 :: rest) from rfl,
                  parseJsonStr_backslash hu, ih]
                rfl
              · by_cases h12 : c = 12
                · subst h12
                  have hu : unescape1 (102 :: (escStr s ++ 34 :: rest)) =
                      some (12, escStr s ++ 34 :: rest) := by simp [unescape1]
                  rw [show escCp 12 ++ (escStr s ++ 34 :: rest) =
                      92 :: 102 :: (escStr s ++ 34 :: rest) from rfl,
                    parseJsonStr_backslash hu, ih]
                  rfl
                · by_cases h13 : c = 13
                  · subst h13
                    have hu : unescape1 (114 :: (escStr s ++ 34 :: rest)) =
                        some (13, escStr s ++ 34 :: rest) := by simp [unescape1]
                    rw [show escCp 13 ++ (escStr s ++ 34 :: rest) =
                        92 :: 114 :: (escStr s ++ 34 :: rest) from rfl,
                      parseJsonStr_backslash hu, ih]
                    rfl
                  · have hd1 : hexValCp (hexDigitCp (c / 16)) = some (c / 16) :=
                      hexValCp_hexDigitCp _ (by omega)
                    have hd2 : hexValCp (hexDigitCp (c % 16)) = some (c % 16) :=
                      hexValCp_hexDigitCp _ (by omega)
                    have h48 : hexValCp 48 = some 0 := by decide
                    have hesc : escCp c ++ (escStr s ++ 34 :: rest) =
                        92 :: 117 :: 48 :: 48 :: hexDigitCp (c / 16) :: hexDigitCp (c % 16) ::
                          (escStr s ++ 34 :: rest) := by
                      simp [escCp, h34, h92, hlt, h8, h9, h10, h12, h13]
                    have hu : unescape1 (117 :: 48 :: 48 :: hexDigitCp (c / 16) ::
                        hexDigitCp (c % 16) :: (escStr s ++ 34 :: rest)) =
                        some (c, escStr s ++ 34 :: rest) := by
                      simp [unescape1, unescapeU, h48, hd1, hd2]
                      omega
                    rw [hesc, parseJsonStr_backslash hu, ih]
                    rfl
        · have hesc : escCp c ++ (escStr s ++ 34 :: rest) =
              c :: (escStr s ++ 34 :: rest) := by
            simp [escCp, h34, h92, hlt]
          rw [hesc, parseJsonStr_other _ h34 h92, ih]
          rfl

theorem expectLit_append (lit r : List Nat) : expectLit lit (lit ++ r) = some r := by
  induction lit with
  | nil => rfl
  | cons l ls ih => simp [expectLit, ih]

theorem parseEnvObj_ser (e : Env) (r : List Nat) :
    parseEnvObj (serializeEnvCp e ++ r) = some ((str2cp e.key, str2cp e.value), r) := by
  have h1 : serializeEnvCp e ++ r =
      str2cp "\x7b\"key\":\"" ++ (escStr (str2cp e.key) ++ (34 ::
        (str2cp ",\"value\":\"" ++ (escStr (str2cp e.value) ++ (34 :: 125 :: r))))) := by
    simp [serializeEnvCp]
  rw [h1]
  simp only [parseEnvObj, expectLit_append, parseJsonStr_escStr]
  rfl

theorem serObjsTail_length (es : List Env) : es.length ≤ (serObjsTail es).length := by
  induction es with
  | nil => simp [serObjsTail]
  | cons e t ih =>
    simp only [serObjsTail, List.length_cons, List.length_append]
    omega

theorem parseMoreObjs_serObjsTail (es : List Env) :
    ∀ fuel, es.length ≤ fuel → parseMoreObjs fuel (serObjsTail es) = some (envCps es) := by
  induction es with
  | nil => intro fuel _; simp [serObjsTail, parseMoreObjs, envCps]
  | cons e t ih =>
    intro fuel hfuel
    cases fuel with
    | zero => simp at hfuel
    | succ f =>
      have hshape : serObjsTail (e :: t) = 44 :: (serializeEnvCp e ++ serObjsTail t) := rfl
      rw [hshape]
      simp only [parseMoreObjs, parseEnvObj_ser]
      rw [ih f (by simpa using hfuel)]
      rfl

theorem parseEnvsJson_ser (envs : List Env) :
    parseEnvsJson (serializeEnvsCp envs) = some (envCps envs) := by
  cases envs with
  | nil =>
    rfl
  | cons e es =>
    have hlit : str2cp "\x7b\"key\":\"" = 123 :: [34, 107, 101, 121, 34, 58, 34] := by decide
    have ht : serializeEnvCp e ++ serObjsTail es =
        123 :: ([34, 107, 101, 121, 34, 58, 34] ++ escStr (str2cp e.key) ++ [34] ++
          str2cp ",\"value\":\"" ++ escStr (str2cp e.value) ++ [34, 125] ++ serObjsTail es) := by
      simp [serializeEnvCp, hlit]
    have hlen : es.length ≤ (serializeEnvsCp (e :: es)).length := by
      have h1 := serObjsTail_length es
      simp only [serializeEnvsCp, List.length_append]
      omega
    simp only [serializeEnvsCp, parseEnvsJson, expectLit_append]
    rw [ht, ← ht]
    simp only [parseEnvObj_ser]
    rw [parseMoreObjs_serObjsTail es _ (by simpa [serializeEnvsCp] using hlen)]
    rfl

/-! ## UTF-8 (`new TextEncoder().encode`)

`TextEncoder` turns the serialized JSON text into the byte sequence that is
actually encrypted. Codepoints are encoded by the standard 1-4 byte UTF-8
scheme; the decoder below is the lenient inverse used by the test-only
decrypt helper. -/

/-- UTF-8 encoding of one codepoint. -/
def utf8EncodeCp (n : Nat) : List Nat :=
  if n < 128 then [n]
  else if n < 2048 then [192 + n / 64, 128 + n % 64]
  else if n < 65536 then [224 + n / 4096, 128 + n / 64 % 64, 128 + n % 64]
  else [240 + n / 262144, 128 + n / 4096 % 64, 128 + n / 64 % 64, 128 + n % 64]

/-- UTF-8 encoding of a codepoint sequence. -/
def utf8Encode (cps : List Nat) : List Nat :=
  cps.foldr (fun c acc => utf8EncodeCp c ++ acc) []

/-- Decode one UTF-8 codepoint: the codepoint and the remaining bytes. -/
def utf8DecodeOne : List Nat → Option (Nat × List Nat)
  | [] => none
  | b :: rest =>
    if b < 128 then some (b, rest)
    else if b < 192 then none
    else if b < 224 then
      match rest with
      | b2 :: rest2 => some ((b - 192) * 64 + (b2 - 128), rest2)
      | [] => none
    else if b < 240 then
      match rest with
      | b2 :: b3 :: rest3 => some ((b - 224) * 4096 + (b2 - 128) * 64 + (b3 - 128), rest3)
      | _ => none
    else
      match rest with
      | b2 :: b3 :: b4 :: rest4 =>
        some ((b - 240) * 262144 + (b2 - 128) * 4096 + (b3 - 128) * 64 + (b4 - 128), rest4)
      | _ => none

set_option maxRecDepth 4096 in
theorem utf8DecodeOne_len : ∀ {l : List Nat} {p : Nat × List Nat},
    utf8DecodeOne l = some p → p.2.length < l.length := by
  intro l p h
  cases l with
  | nil => simp [utf8DecodeOne] at h
  | cons b rest =>
    simp only [utf8DecodeOne] at h
    split_ifs at h
    · cases h
      simp
    · rcases rest with _ | ⟨b2, r2⟩
      · simp at h
      · cases h
        simp
        try omega
    · rcases rest with _ | ⟨b2, (_ | ⟨b3, r3⟩)⟩
      · simp at h
      · simp at h
      · cases h
        simp
        try omega
    · rcases rest with _ | ⟨b2, (_ | ⟨b3, (_ | ⟨b4, r4⟩)⟩)⟩
      · simp at h
      · simp at h
      · simp at h
      · cases h
        simp
        try omega

/-- Lenient UTF-8 decoding back to codepoints. -/
def utf8Decode : List Nat → Option (List Nat)
  | [] => some []
  | b :: rest =>
    match h : utf8DecodeOne (b :: rest) with
    | some (c, r2) => (utf8Decode r2).map (fun l => c :: l)
    | none => none
termination_by l => l.length
decreasing_by
  · have h2 := utf8DecodeOne_len h
    simp at h2 ⊢
    omega

/-! ## UTF-8 roundtrip lemmas -/

theorem utf8Decode_nil : utf8Decode [] = some [] := by
  rw [utf8Decode.eq_def]

theorem utf8Decode_cons {b c : Nat} {rest r2 : List Nat}
    (h : utf8DecodeOne (b :: rest) = some (c, r2)) :
    utf8Decode (b :: rest) = (utf8Decode r2).map (fun l => c :: l) := by
  rw [utf8Decode.eq_def]
  split
  next heq => exact absurd heq (by simp)
  next b2 rest2 heq =>
    cases heq
    split
    next c2 r3 heq2 =>
      rw [h] at heq2
      cases heq2
      rfl
    next heq2 =>
      rw [h] at heq2
      cases heq2

theorem utf8Decode_utf8EncodeCp (n : Nat) (rest : List Nat) :
    utf8Decode (utf8EncodeCp n ++ rest) = (utf8Decode rest).map (fun l => n :: l) := by
  by_cases hn1 : n < 128
  · rw [show utf8EncodeCp n ++ rest = n :: rest by simp [utf8EncodeCp, hn1]]
    exact utf8Decode_cons (by simp [utf8DecodeOne, hn1])
  · by_cases hn2 : n < 2048
    · rw [show utf8EncodeCp n ++ rest = (192 + n / 64) :: (128 + n % 64) :: rest by
          simp [utf8EncodeCp, hn1, hn2]]
      have hone : utf8DecodeOne ((192 + n / 64) :: (128 + n % 64) :: rest) =
          some (n, rest) := by
        simp only [utf8DecodeOne]
        rw [if_neg (by omega), if_neg (by omega), if_pos (by omega)]
        simp only [show (192 + n / 64 - 192) * 64 + (128 + n % 64 - 128) = n by omega]
      exact utf8Decode_cons hone
    · by_cases hn3 : n < 65536
      · rw [show utf8EncodeCp n ++ rest =
            (224 + n / 4096) :: (128 + n / 64 % 64) :: (128 + n % 64) :: rest by
              simp [utf8EncodeCp, hn1, hn2, hn3]]
        have hone : utf8DecodeOne ((224 + n / 4096) :: (128 + n / 64 % 64) ::
            (128 + n % 64) :: rest) = some (n, rest) := by
          simp only [utf8DecodeOne]
          rw [if_neg (by omega), if_neg (by omega), if_neg (by omega), if_pos (by omega)]
          simp only [show (224 + n / 4096 - 224) * 4096 + (128 + n / 64 % 64 - 128) * 64 +
            (128 + n % 64 - 128) = n by omega]
        exact utf8Decode_cons hone
      · rw [show utf8EncodeCp n ++ rest =
            (240 + n / 262144) :: (128 + n / 4096 % 64) :: (128 + n / 64 % 64) ::
              (128 + n % 64) :: rest by simp [utf8EncodeCp, hn1, hn2, hn3]]
        have hone : utf8DecodeOne ((240 + n / 262144) :: (128 + n / 4096 % 64) ::
            (128 + n / 64 % 64) :: (128 + n % 64) :: rest) = some (n, rest) := by
          simp only [utf8DecodeOne]
          rw [if_neg (by omega), if_neg (by omega), if_neg (by omega), if_neg (by omega)]
          simp only [show (240 + n / 262144 - 240) * 262144 + (128 + n / 4096 % 64 - 128) * 4096
            + (128 + n / 64 % 64 - 128) * 64 + (128 + n % 64 - 128) = n by omega]
        exact utf8Decode_cons hone

theorem utf8Decode_utf8Encode (cps : List Nat) : utf8Decode (utf8Encode cps) = some cps := by
  induction cps with
  | nil => exact utf8Decode_nil
  | cons c t ih =>
    rw [show utf8Encode (c :: t) = utf8EncodeCp c ++ utf8Encode t from rfl,
      utf8Decode_utf8EncodeCp, ih]
    rfl

/-! ## `encryptSecrets` (src/src/utils/crypto.ts, lines 40-86)

The external primitives (noble-curves X25519 and WebCrypto AES-256-GCM) are
not code of this repository; they enter the embedding as an abstract
`CryptoPrims` record, together with the randomness the source draws
(`x25519.utils.randomPrivateKey()` and `crypto.getRandomValues(new
Uint8Array(12))`) passed in as explicit arguments.  Everything the
repository computes itself — hex decoding of the remote key, JSON
serialization, UTF-8 encoding, payload concatenation, hex encoding of the
result — is modelled concretely.

The abstract primitives are total functions: a failure of an external
call (for example noble rejecting decoded key bytes of the wrong length,
or a low-order point) is outside the embedding.  Consequently no theorem
below asserts that `encryptSecrets` as a whole succeeds merely because the
key passed the hex-format check; statements about keys of even stripped
length are confined to the hex-decode step. -/

/-- Abstract key-exchange and AEAD primitives. -/
structure CryptoPrims where
  getPublicKey : List Nat → List Nat
  getSharedSecret : List Nat → List Nat → List Nat
  aesGcmEncrypt : List Nat → List Nat → List Nat → List Nat
  aesGcmDecrypt : List Nat → List Nat → List Nat → Option (List Nat)

/-- UTF-8 bytes of `JSON.stringify` applied to the env wrapper object;
this is the AEAD plaintext of `encryptSecrets`. -/
def serializeEnvs (envs : List Env) : List Nat :=
  utf8Encode (serializeEnvsCp envs)

/-- `encryptSecrets` from src/src/utils/crypto.ts with the randomness
(`ephPriv`, `iv`) injected: decode the remote public key, compute the
shared secret, AEAD-encrypt the serialized env list, and hex-encode
`publicKey || iv || ciphertext`.  Any error is wrapped in the
`加密环境变量失败` message exactly as the source's catch block does. -/
def encryptSecrets (prims : CryptoPrims) (ephPriv iv : List Nat) (envs : List Env)
    (pubkey : String) : Except String String :=
  match hexToUint8Array pubkey with
  | .error m => .error ("加密环境变量失败: " ++ m)
  | .ok remotePubkey =>
    let publicKey := prims.getPublicKey ephPriv
    let shared := prims.getSharedSecret ephPriv remotePubkey
    let encrypted := prims.aesGcmEncrypt shared iv (serializeEnvs envs)
    .ok (uint8ArrayToHex (publicKey ++ iv ++ encrypted))

/-- Modelled from the spec: the repository ships no decrypt code; §8
describes a test-only decrypt helper and §6 fixes the wire format
`ephemeral_public_key(32) || nonce(12) || ciphertext_with_tag`.  The helper
decodes the hex payload, slices exactly those boundaries, recomputes the
shared secret from the receiver's private key and the ephemeral public key,
AEAD-decrypts, and parses the UTF-8 JSON plaintext back into key/value
codepoint pairs. -/
def decryptSecrets (prims : CryptoPrims) (receiverPriv : List Nat) (payload : String) :
    Option (List (List Nat × List Nat)) :=
  match hexToUint8Array payload with
  | .error _ => none
  | .ok bytes =>
    let epk := bytes.take 32
    let nonce := (bytes.drop 32).take 12
    let ct := bytes.drop 44
    let shared := prims.getSharedSecret receiverPriv epk
    match prims.aesGcmDecrypt shared nonce ct with
    | none => none
    | some pt =>
      match utf8Decode pt with
      | none => none
      | some cps => parseEnvsJson cps

/-! ## Injectivity: the recovered codepoint pairs determine the env list -/

theorem char_toNat_injective : Function.Injective Char.toNat := by
  intro a b h
  have h2 := Char.ofNat_toNat a
  rw [h, Char.ofNat_toNat] at h2
  exact h2.symm

theorem str2cp_injective : Function.Injective str2cp := by
  intro a b h
  exact String.ext (List.map_injective_iff.mpr char_toNat_injective h)

theorem envCps_injective : Function.Injective envCps := by
  apply List.map_injective_iff.mpr
  intro a b h
  obtain ⟨h1, h2⟩ := Prod.mk.injEq .. ▸ h
  cases a
  cases b
  simp only [Env.mk.injEq]
  exact ⟨str2cp_injective h1, str2cp_injective h2⟩

theorem uint8ArrayToHex_length (bs : List Nat) :
    (uint8ArrayToHex bs).length = 2 * bs.length := by
  show (bs.foldr (fun b acc => byteToHex b ++ acc) []).length = 2 * bs.length
  exact length_hexChars bs

/-- Concrete stand-in primitives used to exercise the theorems on closed
inputs: a constant key pair, a constant shared secret, and an AEAD that
appends a 16-byte tag. -/
def trivPrims : CryptoPrims where
  getPublicKey := fun _ => List.replicate 32 7
  getSharedSecret := fun _ _ => List.replicate 32 9
  aesGcmEncrypt := fun _ _ pt => pt ++ List.replicate 16 0
  aesGcmDecrypt := fun _ _ ct =>
    if ct.length < 16 then none else some (ct.take (ct.length - 16))

/-- C2 counterexample: the claim says every key containing non-hex
characters is rejected with `InvalidKeyFormat`.  The even-length key
`4z00…00` (64 characters, containing the non-hex character `z`) is instead
silently decoded — `parseInt("4z", 16)` parses the prefix `4` — and
`encryptSecrets` succeeds. -/
theorem C2_counterexample :
    hexToUint8Array "4z00000000000000000000000000000000000000000000000000000000000000" =
      .ok (4 :: List.replicate 31 0)
    ∧ (encryptSecrets trivPrims (List.replicate 32 1) (List.replicate 12 2) []
        "4z00000000000000000000000000000000000000000000000000000000000000").isOk = true := by
  constructor
  · rfl
  · decide

/-- C2 (amended): the key-format check of `encryptSecrets` rejects exactly
the keys whose length is odd after stripping an optional `0x`: such keys
fail with the invalid-hex error (wrapped by the catch block) before any
primitive is invoked.  A key of even stripped length is never rejected by
the format check: non-hex characters are silently decoded (each
two-character pair parsed leniently by `parseInt`, `NaN` stored as 0) and
the decoded bytes are handed to the key-exchange primitive, so
`encryptSecrets` never fails with the invalid-hex error on such a key —
any failure there would come from the external primitives, which are
outside this embedding. -/
theorem C2_amended (prims : CryptoPrims) (ephPriv iv : List Nat) (envs : List Env)
    (key : String) :
    ((strip0x key.data).length % 2 = 1 →
      encryptSecrets prims ephPriv iv envs key =
        .error ("加密环境变量失败: " ++ "不是有效的16进制字符串"))
    ∧ ((strip0x key.data).length % 2 = 0 →
      hexToUint8Array key = .ok (decodePairs (strip0x key.data))
      ∧ encryptSecrets prims ephPriv iv envs key ≠
          .error ("加密环境变量失败: " ++ "不是有效的16进制字符串")) := by
  constructor
  · intro h
    have hhex : hexToUint8Array key = .error "不是有效的16进制字符串" := by
      rw [hexToUint8Array, if_pos (by omega)]
    rw [encryptSecrets, hhex]
  · intro h
    have hhex : hexToUint8Array key = .ok (decodePairs (strip0x key.data)) := by
      rw [hexToUint8Array, if_neg (by omega)]
    refine ⟨hhex, ?_⟩
    rw [encryptSecrets, hhex]
    intro hcontra
    cases hcontra

/-- C2 witness: the odd-length key `abc` is rejected with the wrapped
invalid-hex error; the even-length non-hex key `4z` is silently decoded
(`parseInt("4z", 16)` parses the prefix `4`) and is not rejected with the
invalid-hex error. -/
theorem C2_amended_witness :
    encryptSecrets trivPrims [1] [2] [] "abc" =
      .error ("加密环境变量失败: " ++ "不是有效的16进制字符串")
    ∧ hexToUint8Array "4z" = .ok [4]
    ∧ encryptSecrets trivPrims [1] [2] [] "4z" ≠
        .error ("加密环境变量失败: " ++ "不是有效的16进制字符串") := by
  have h2 := (C2_amended trivPrims [1] [2] [] "4z").2 (by decide)
  refine ⟨(C2_amended trivPrims [1] [2] [] "abc").1 (by decide), ?_, h2.2⟩
  rw [h2.1]
  rfl

/-- C4: for every secret set and valid 32-byte remote public key,
`encryptSecrets` returns the hex encoding of
`ephemeral_public_key(32) || nonce(12) || ciphertext_with_tag`, whose
length is `(32 + 12 + len(serialize(S)) + 16) * 2`; decoding the hex
recovers exactly those three components, and the test-only decrypt helper
run with the matching private key recovers exactly the secret set (the
recovered codepoint pairs determine the env list uniquely).  The AEAD and
key-exchange laws of the external primitives enter as hypotheses. -/
theorem C4_encrypt_roundtrip
    (prims : CryptoPrims) (ephPriv receiverPriv iv : List Nat) (envs : List Env)
    (K : String) (remotePub : List Nat)
    (hkey : hexToUint8Array K = .ok remotePub)
    (hmatch : remotePub = prims.getPublicKey receiverPriv)
    (hpk_len : (prims.getPublicKey ephPriv).length = 32)
    (hiv_len : iv.length = 12)
    (hct_len : (prims.aesGcmEncrypt (prims.getSharedSecret ephPriv remotePub) iv
      (serializeEnvs envs)).length = (serializeEnvs envs).length + 16)
    (hbytes : ∀ b ∈ prims.getPublicKey ephPriv ++ iv ++
      prims.aesGcmEncrypt (prims.getSharedSecret ephPriv remotePub) iv (serializeEnvs envs),
      b < 256)
    (hdec : ∀ k i pt, prims.aesGcmDecrypt k i (prims.aesGcmEncrypt k i pt) = some pt)
    (hdh : ∀ a b, prims.getSharedSecret a (prims.getPublicKey b)
        = prims.getSharedSecret b (prims.getPublicKey a)) :
    encryptSecrets prims ephPriv iv envs K =
      .ok (uint8ArrayToHex (prims.getPublicKey ephPriv ++ iv ++
        prims.aesGcmEncrypt (prims.getSharedSecret ephPriv remotePub) iv (serializeEnvs envs)))
    ∧ (uint8ArrayToHex (prims.getPublicKey ephPriv ++ iv ++
        prims.aesGcmEncrypt (prims.getSharedSecret ephPriv remotePub) iv
          (serializeEnvs envs))).length = (32 + 12 + (serializeEnvs envs).length + 16) * 2
    ∧ hexToUint8Array (uint8ArrayToHex (prims.getPublicKey ephPriv ++ iv ++
        prims.aesGcmEncrypt (prims.getSharedSecret ephPriv remotePub) iv
          (serializeEnvs envs))) =
      .ok (prims.getPublicKey ephPriv ++ iv ++
        prims.aesGcmEncrypt (prims.getSharedSecret ephPriv remotePub) iv (serializeEnvs envs))
    ∧ decryptSecrets prims receiverPriv (uint8ArrayToHex (prims.getPublicKey ephPriv ++ iv ++
        prims.aesGcmEncrypt (prims.getSharedSecret ephPriv remotePub) iv
          (serializeEnvs envs))) = some (envCps envs)
    ∧ (∀ envs2, envCps envs2 = envCps envs → envs2 = envs) := by
  set pub := prims.getPublicKey ephPriv with hpub
  set ct := prims.aesGcmEncrypt (prims.getSharedSecret ephPriv remotePub) iv
    (serializeEnvs envs) with hct
  have hdecode : hexToUint8Array (uint8ArrayToHex (pub ++ iv ++ ct)) =
      .ok (pub ++ iv ++ ct) := hexToUint8Array_uint8ArrayToHex _ hbytes
  refine ⟨?_, ?_, hdecode, ?_, fun envs2 h => envCps_injective h⟩
  · rw [encryptSecrets, hkey]
  · rw [uint8ArrayToHex_length]
    simp only [List.length_append, hpk_len, hiv_len, hct_len]
    omega
  · rw [decryptSecrets, hdecode]
    have htake32 : (pub ++ iv ++ ct).take 32 = pub := by
      rw [List.append_assoc]
      exact List.take_left' hpk_len
    have hdrop32 : (pub ++ iv ++ ct).drop 32 = iv ++ ct := by
      rw [List.append_assoc]
      exact List.drop_left' hpk_len
    have hdrop44 : (pub ++ iv ++ ct).drop 44 = ct := by
      refine List.drop_left' ?_
      simp only [List.length_append, hpk_len, hiv_len]
    have htake12 : (iv ++ ct).take 12 = iv := List.take_left' hiv_len
    have hshared : prims.getSharedSecret receiverPriv pub =
        prims.getSharedSecret ephPriv remotePub := by
      rw [hmatch, hpub]
      exact hdh receiverPriv ephPriv
    simp only [htake32, hdrop32, hdrop44, htake12, hshared, hct, hdec]
    rw [show serializeEnvs envs = utf8Encode (serializeEnvsCp envs) from rfl,
      utf8Decode_utf8Encode]
    simp only [parseEnvsJson_ser]

theorem trivPrims_dec : ∀ k i pt,
    trivPrims.aesGcmDecrypt k i (trivPrims.aesGcmEncrypt k i pt) = some pt := by
  intro k i pt
  simp only [trivPrims]
  rw [if_neg (by simp), List.length_append, List.length_replicate,
    show pt.length + 16 - 16 = pt.length by omega, List.take_left]

/-- C4 witness: the roundtrip theorem applied at a concrete secret set and
a concrete 32-byte key. -/
theorem C4_encrypt_roundtrip_witness :
    encryptSecrets trivPrims (List.replicate 32 1) (List.replicate 12 2) [⟨"A", "B"⟩]
        "0707070707070707070707070707070707070707070707070707070707070707" =
      .ok (uint8ArrayToHex (trivPrims.getPublicKey (List.replicate 32 1) ++
        List.replicate 12 2 ++
        trivPrims.aesGcmEncrypt (trivPrims.getSharedSecret (List.replicate 32 1)
          (List.replicate 32 7)) (List.replicate 12 2) (serializeEnvs [⟨"A", "B"⟩])))
    ∧ decryptSecrets trivPrims (List.replicate 32 3)
        (uint8ArrayToHex (trivPrims.getPublicKey (List.replicate 32 1) ++
          List.replicate 12 2 ++
          trivPrims.aesGcmEncrypt (trivPrims.getSharedSecret (List.replicate 32 1)
            (List.replicate 32 7)) (List.replicate 12 2) (serializeEnvs [⟨"A", "B"⟩]))) =
      some (envCps [⟨"A", "B"⟩]) := by
  have h := C4_encrypt_roundtrip trivPrims (List.replicate 32 1) (List.replicate 32 3)
    (List.replicate 12 2) [⟨"A", "B"⟩]
    "0707070707070707070707070707070707070707070707070707070707070707"
    (List.replicate 32 7) (by rfl) rfl (by simp [trivPrims]) rfl
    (by simp [trivPrims]) (by decide) trivPrims_dec (fun a b => rfl)
  exact ⟨h.1, h.2.2.2.1⟩

/-! ## `monitorDeploymentStatus` (src/core/phala-cloud.ts, lines 724-881)

The polling loop is embedded as a step function over an explicit state,
driven by a scripted environment: `query i` is the result of
`getCvmByAppId` on iteration `i`, `network i` the result of
`getCvmNetwork`, and `elapsed i` the wall-clock time iteration `i` took
(`Date.now() - startTime`).  Callback invocations and the two kinds of
waits (`setTimeout` calls) are recorded in a log.  Times are rationals so
that `interval * 0.5` is exact. -/

/-- Snapshot of a CVM as the monitor uses it: the `status` field and the
`app_url` field the success path may attach. -/
structure Cvm where
  status : String
  app_url : Option String
deriving DecidableEq, Repr

/-- One entry of `networkInfo.public_urls`; the monitor reads its `app`
field. -/
structure PublicUrl where
  app : String
deriving DecidableEq, Repr

/-- Response of `getCvmNetwork`. -/
structure NetworkInfo where
  public_urls : List PublicUrl
deriving DecidableEq, Repr

/-- Scripted environment for one monitor run. -/
structure MonitorEnv where
  query : Nat → Except String Cvm
  network : Nat → Except String NetworkInfo
  elapsed : Nat → Rat

/-- Mutable locals of the polling loop. -/
structure MonitorState where
  retryCount : Nat
  deploymentSuccessful : Bool
  lastStatus : String
  finalCvm : Option Cvm
  consecutiveErrors : Nat
deriving DecidableEq, Repr

/-- Record of callback invocations and waits of one monitor run. -/
structure MonitorLog where
  statusChanges : List (String × Cvm)
  successes : List Cvm
  failures : List (String × Cvm)
  timeouts : List (Option Cvm)
  errors : List String
  extendedPauses : List Rat
  waits : List Rat
deriving DecidableEq, Repr

/-- JavaScript `String.prototype.toLowerCase` (character-wise; the statuses
the monitor compares are ASCII). -/
def jsToLower (s : String) : String := ⟨s.data.map Char.toLower⟩

/-- JavaScript `String.prototype.includes` on character lists. -/
def containsSubAux (hay needle : List Char) : Bool :=
  match hay with
  | [] => needle.isEmpty
  | _ :: t => needle.isPrefixOf hay || containsSubAux t needle

/-- JavaScript `String.prototype.includes`. -/
def jsIncludes (s sub : String) : Bool := containsSubAux s.data sub.data

/-- Tail of one loop iteration (from `retryCount++` to the end of the
loop body): increment the attempt counter, halve the target interval if
this iteration had a query error, subtract the elapsed time, and wait when
the loop will run again. -/
def continueStep (env : MonitorEnv) (interval : Rat) (maxRetries : Nat)
    (s : MonitorState) (log : MonitorLog) (hadError : Bool) (i : Nat) :
    MonitorState × MonitorLog × Bool :=
  let s2 := { s with retryCount := s.retryCount + 1 }
  let waitMultiplier : Rat := if hadError then 1/2 else 1
  let targetWaitTime := interval * waitMultiplier
  let remainingWaitTime := max 0 (targetWaitTime - env.elapsed i)
  let log2 := if s2.retryCount < maxRetries ∧ s2.deploymentSuccessful = false
    then { log with waits := log.waits ++ [remainingWaitTime] } else log
  (s2, log2, false)

/-- One iteration of the `while` loop of `monitorDeploymentStatus`
(lines 785-869).  The returned Bool is true when the body executed
`break`. -/
def monitorStep (env : MonitorEnv) (interval : Rat) (maxRetries : Nat)
    (s : MonitorState) (log : MonitorLog) : MonitorState × MonitorLog × Bool :=
  let i := s.retryCount
  match env.query i with
  | .ok cvm =>
    let s1 := { s with finalCvm := some cvm, consecutiveErrors := 0 }
    let s2 := if s1.lastStatus = cvm.status then s1 else { s1 with lastStatus := cvm.status }
    let log1 := if s1.lastStatus = cvm.status then log
      else { log with statusChanges := log.statusChanges ++ [(cvm.status, cvm)] }
    if jsToLower cvm.status = "running" then
      let finalCvm := match env.network i with
        | .ok ni =>
          match ni.public_urls with
          | u :: _ => { cvm with app_url := some u.app }
          | [] => cvm
        | .error _ => cvm
      ({ s2 with deploymentSuccessful := true, finalCvm := some finalCvm },
        { log1 with successes := log1.successes ++ [finalCvm] }, true)
    else if jsIncludes (jsToLower cvm.status) "error" || jsIncludes (jsToLower cvm.status) "fail" then
      (s2, { log1 with failures := log1.failures ++ [(cvm.status, cvm)] }, true)
    else
      continueStep env interval maxRetries s2 log1 false i
  | .error e =>
    let ce := s.consecutiveErrors + 1
    let log1 := { log with errors := log.errors ++ [e] }
    let ceLog2 := if ce ≥ 3 then
        (max 0 (ce - 1), { log1 with extendedPauses := log1.extendedPauses ++ [interval * 2] })
      else (ce, log1)
    continueStep env interval maxRetries { s with consecutiveErrors := ceLog2.1 } ceLog2.2
      true i

/-- The `while` loop, fuel-indexed.  Fuel equal to `maxRetries` is exact:
`retryCount` starts at 0 and increases by one on every iteration that does
not break, so the guard `retryCount < maxRetries` fails no later than the
fuel runs out. -/
def monitorLoop (env : MonitorEnv) (interval : Rat) (maxRetries : Nat) :
    Nat → MonitorState → MonitorLog → MonitorState × MonitorLog
  | 0, s, log => (s, log)
  | fuel + 1, s, log =>
    if s.retryCount < maxRetries ∧ s.deploymentSuccessful = false then
      let r := monitorStep env interval maxRetries s log
      if r.2.2 then (r.1, r.2.1)
      else monitorLoop env interval maxRetries fuel r.1 r.2.1
    else (s, log)

/-- `monitorDeploymentStatus`: run the loop from the initial state, then
fire `onTimeout` when the attempt budget was exhausted without success,
and return `finalCvm`. -/
def monitorDeploymentStatus (env : MonitorEnv) (interval : Rat) (maxRetries : Nat) :
    Option Cvm × MonitorLog :=
  let s0 : MonitorState := ⟨0, false, "", none, 0⟩
  let log0 : MonitorLog := ⟨[], [], [], [], [], [], []⟩
  let r := monitorLoop env interval maxRetries maxRetries s0 log0
  let log2 := if r.1.retryCount ≥ maxRetries ∧ r.1.deploymentSuccessful = false
    then { r.2 with timeouts := r.2.timeouts ++ [r.1.finalCvm] } else r.2
  (r.1.finalCvm, log2)

/-! ## Step equations for the monitor loop -/

/-- Error iteration of the monitor loop, as one equation: `onError` is
recorded, the consecutive-error count is incremented (decremented by one
after the extended pause when it reached the threshold 3), one extended
pause of double the interval is inserted exactly at the threshold, and the
timing-corrected wait uses half the interval. -/
theorem monitorStep_error (env : MonitorEnv) (interval : Rat) (mr : Nat) (s : MonitorState)
    (log : MonitorLog) {e : String} (hq : env.query s.retryCount = .error e) :
    monitorStep env interval mr s log =
      ({ s with
          retryCount := s.retryCount + 1,
          consecutiveErrors :=
            if s.consecutiveErrors + 1 ≥ 3 then s.consecutiveErrors
            else s.consecutiveErrors + 1 },
        { log with
          errors := log.errors ++ [e],
          extendedPauses := log.extendedPauses ++
            (if s.consecutiveErrors + 1 ≥ 3 then [interval * 2] else []),
          waits := log.waits ++
            (if s.retryCount + 1 < mr ∧ s.deploymentSuccessful = false
              then [max 0 (interval / 2 - env.elapsed s.retryCount)] else []) },
        false) := by
  have hdiv2 : interval * (2⁻¹ : Rat) = interval / 2 := by ring
  simp only [monitorStep, hq, continueStep]
  by_cases hce : s.consecutiveErrors + 1 ≥ 3
  · simp only [if_pos hce]
    by_cases hw : s.retryCount + 1 < mr ∧ s.deploymentSuccessful = false
    · simp [hw, hce, hdiv2]
    · simp [hw, hce, hdiv2]
  · simp only [if_neg hce]
    by_cases hw : s.retryCount + 1 < mr ∧ s.deploymentSuccessful = false
    · simp [hw, hce, hdiv2]
    · simp [hw, hce, hdiv2]

/-- Non-terminal successful iteration: the consecutive-error count resets,
`onStatusChange` fires exactly when the status differs from the previously
observed one, and the timing-corrected wait uses the full interval. -/
theorem monitorStep_ok_polling (env : MonitorEnv) (interval : Rat) (mr : Nat)
    (s : MonitorState) (log : MonitorLog) {cvm : Cvm}
    (hq : env.query s.retryCount = .ok cvm)
    (hrun : jsToLower cvm.status ≠ "running")
    (hfail : (jsIncludes (jsToLower cvm.status) "error"
      || jsIncludes (jsToLower cvm.status) "fail") = false) :
    monitorStep env interval mr s log =
      ({ s with
          retryCount := s.retryCount + 1,
          finalCvm := some cvm,
          consecutiveErrors := 0,
          lastStatus := cvm.status },
        { log with
          statusChanges := log.statusChanges ++
            (if s.lastStatus = cvm.status then [] else [(cvm.status, cvm)]),
          waits := log.waits ++
            (if s.retryCount + 1 < mr ∧ s.deploymentSuccessful = false
              then [max 0 (interval - env.elapsed s.retryCount)] else []) },
        false) := by
  simp only [monitorStep, hq, continueStep, hfail]
  rw [if_neg hrun]
  simp only [Bool.false_eq_true, if_false]
  by_cases hls : s.lastStatus = cvm.status
  · by_cases hw : s.retryCount + 1 < mr ∧ s.deploymentSuccessful = false
    · simp [hls, hw]
    · simp [hls, hw]
  · by_cases hw : s.retryCount + 1 < mr ∧ s.deploymentSuccessful = false
    · simp [hls, hw]
    · simp [hls, hw]

/-- Scripted statuses `["starting","starting","running"]`; the network
enrichment call fails (and is swallowed by the source), so the returned
snapshot is the queried one. -/
def mon3Env : MonitorEnv where
  query := fun i =>
    match i with
    | 0 => .ok ⟨"starting", none⟩
    | 1 => .ok ⟨"starting", none⟩
    | _ => .ok ⟨"running", none⟩
  network := fun _ => .error "network unavailable"
  elapsed := fun _ => 0

/-- C3 counterexample: on the scripted sequence
`["starting","starting","running"]` the monitor fires `onStatusChange`
twice, not once — `lastStatus` starts as the empty string, so the first
observed status already differs from it and fires the callback. -/
theorem C3_counterexample :
    (monitorDeploymentStatus mon3Env 5000 36).2.statusChanges.length = 2 := by
  decide

/-- C3 (amended): on the scripted sequence `["starting","starting","running"]`
`onStatusChange` fires exactly twice — once for the first observed status
(the baseline is the empty string, so the first snapshot counts as a
change) and once for the transition to `running`; `onSuccess` fires exactly
once with the third snapshot, and `monitor` returns that snapshot. -/
theorem C3_amended :
    (monitorDeploymentStatus mon3Env 5000 36).2.statusChanges =
      [("starting", ⟨"starting", none⟩), ("running", ⟨"running", none⟩)]
    ∧ (monitorDeploymentStatus mon3Env 5000 36).2.successes = [⟨"running", none⟩]
    ∧ (monitorDeploymentStatus mon3Env 5000 36).2.failures = []
    ∧ (monitorDeploymentStatus mon3Env 5000 36).2.timeouts = []
    ∧ (monitorDeploymentStatus mon3Env 5000 36).1 = some ⟨"running", none⟩ := by
  refine ⟨?_, ?_, ?_, ?_, ?_⟩ <;> rfl

/-- When every status query fails, every iteration runs the error path:
the attempt counter reaches the budget, no snapshot is ever recorded,
`onError` fires once per iteration, and no terminal callback fires inside
the loop. -/
theorem monitorLoop_all_errors (env : MonitorEnv) (interval : Rat) (mr : Nat)
    (h : ∀ i, ∃ e, env.query i = .error e) :
    ∀ fuel s log, s.deploymentSuccessful = false → s.retryCount + fuel = mr →
      (monitorLoop env interval mr fuel s log).1.retryCount = mr
      ∧ (monitorLoop env interval mr fuel s log).1.deploymentSuccessful = false
      ∧ (monitorLoop env interval mr fuel s log).1.finalCvm = s.finalCvm
      ∧ (monitorLoop env interval mr fuel s log).2.errors.length = log.errors.length + fuel
      ∧ (monitorLoop env interval mr fuel s log).2.timeouts = log.timeouts := by
  intro fuel
  induction fuel with
  | zero =>
    intro s log hs hr
    have h1 : monitorLoop env interval mr 0 s log = (s, log) := rfl
    rw [h1]
    refine ⟨?_, hs, rfl, ?_, rfl⟩
    · show s.retryCount = mr
      omega
    · show log.errors.length = log.errors.length + 0
      omega
  | succ n ih =>
    intro s log hs hr
    obtain ⟨e, hq⟩ := h s.retryCount
    simp only [monitorLoop, if_pos (show s.retryCount < mr ∧ s.deploymentSuccessful = false
      from ⟨by omega, hs⟩)]
    rw [monitorStep_error env interval mr s log hq]
    simp only [if_neg (by simp : ¬false = true)]
    have hrec := ih { s with
        retryCount := s.retryCount + 1,
        consecutiveErrors :=
          if s.consecutiveErrors + 1 ≥ 3 then s.consecutiveErrors
          else s.consecutiveErrors + 1 }
      { log with
        errors := log.errors ++ [e],
        extendedPauses := log.extendedPauses ++
          (if s.consecutiveErrors + 1 ≥ 3 then [interval * 2] else []),
        waits := log.waits ++
          (if s.retryCount + 1 < mr ∧ s.deploymentSuccessful = false
            then [max 0 (interval / 2 - env.elapsed s.retryCount)] else []) }
      hs (by simp; omega)
    refine ⟨hrec.1, hrec.2.1, hrec.2.2.1, ?_, hrec.2.2.2.2⟩
    rw [hrec.2.2.2.1]
    simp
    omega

/-- C6: when the status query always throws, the query error never
terminates the monitor run; with `maxRetries = 5` every iteration counts,
`onError` is invoked exactly five times, `onTimeout` fires exactly once
with a null snapshot, and that null snapshot is also the returned value.
No success or failure callback fires. -/
theorem C6_monitor_error_budget (env : MonitorEnv) (interval : Rat)
    (h : ∀ i, ∃ e, env.query i = .error e) :
    (monitorDeploymentStatus env interval 5).1 = none
    ∧ (monitorDeploymentStatus env interval 5).2.errors.length = 5
    ∧ (monitorDeploymentStatus env interval 5).2.timeouts = [none] := by
  have haux := monitorLoop_all_errors env interval 5 h 5 ⟨0, false, "", none, 0⟩
    ⟨[], [], [], [], [], [], []⟩ rfl rfl
  have h3 : (monitorLoop env interval 5 5 ⟨0, false, "", none, 0⟩
      ⟨[], [], [], [], [], [], []⟩).1.finalCvm = none := haux.2.2.1
  have h4 : (monitorLoop env interval 5 5 ⟨0, false, "", none, 0⟩
      ⟨[], [], [], [], [], [], []⟩).2.errors.length = 5 := by
    simpa using haux.2.2.2.1
  have h5 : (monitorLoop env interval 5 5 ⟨0, false, "", none, 0⟩
      ⟨[], [], [], [], [], [], []⟩).2.timeouts = [] := haux.2.2.2.2
  simp only [monitorDeploymentStatus]
  rw [if_pos ⟨by rw [haux.1], haux.2.1⟩]
  refine ⟨h3, ?_, ?_⟩
  · show (monitorLoop env interval 5 5 ⟨0, false, "", none, 0⟩
      ⟨[], [], [], [], [], [], []⟩).2.errors.length = 5
    exact h4
  · show (monitorLoop env interval 5 5 ⟨0, false, "", none, 0⟩
        ⟨[], [], [], [], [], [], []⟩).2.timeouts ++
      [(monitorLoop env interval 5 5 ⟨0, false, "", none, 0⟩
        ⟨[], [], [], [], [], [], []⟩).1.finalCvm] = [none]
    rw [h5, h3]
    rfl

/-- Scripted environment whose query always throws. -/
def monErrEnv : MonitorEnv where
  query := fun _ => .error "transport error"
  network := fun _ => .error "transport error"
  elapsed := fun _ => 0

/-- C6 witness: the error-budget theorem at a concrete always-throwing
script. -/
theorem C6_monitor_error_budget_witness :
    (monitorDeploymentStatus monErrEnv 5000 5).1 = none
    ∧ (monitorDeploymentStatus monErrEnv 5000 5).2.errors.length = 5
    ∧ (monitorDeploymentStatus monErrEnv 5000 5).2.timeouts = [none] :=
  C6_monitor_error_budget monErrEnv 5000 (fun _ => ⟨"transport error", rfl⟩)

/-- C7: in every monitor iteration the consecutive-error count is
incremented on a query failure and reset to zero on a query success; when
the incremented count reaches the fixed threshold 3, exactly one extended
pause of double the configured interval is inserted and the count is then
decremented by one (ending at its pre-increment value) rather than reset
to zero.  Below the threshold, and on success, no extended pause is
inserted. -/
theorem C7_consecutive_error_accounting (env : MonitorEnv) (interval : Rat) (mr : Nat)
    (s : MonitorState) (log : MonitorLog) :
    (∀ e, env.query s.retryCount = .error e →
      (monitorStep env interval mr s log).1.consecutiveErrors =
        (if s.consecutiveErrors + 1 ≥ 3 then s.consecutiveErrors
          else s.consecutiveErrors + 1)
      ∧ (monitorStep env interval mr s log).2.1.extendedPauses =
        log.extendedPauses ++
          (if s.consecutiveErrors + 1 ≥ 3 then [interval * 2] else []))
    ∧ (∀ cvm, env.query s.retryCount = .ok cvm →
      (monitorStep env interval mr s log).1.consecutiveErrors = 0
      ∧ (monitorStep env interval mr s log).2.1.extendedPauses = log.extendedPauses) := by
  constructor
  · intro e hq
    rw [monitorStep_error env interval mr s log hq]
    exact ⟨rfl, rfl⟩
  · intro cvm hq
    simp only [monitorStep, hq, continueStep]
    by_cases hls : s.lastStatus = cvm.status <;>
      by_cases hrun : jsToLower cvm.status = "running" <;>
        simp [hls, hrun] <;> split_ifs <;> simp

/-- C7 witness: one error iteration at consecutive-error count 2 (the
threshold is reached: one extended pause of double the interval, count
decremented back to 2) and one success iteration (count reset to zero, no
pause). -/
theorem C7_consecutive_error_accounting_witness :
    (monitorStep monErrEnv 5000 36 ⟨0, false, "", none, 2⟩
      ⟨[], [], [], [], [], [], []⟩).1.consecutiveErrors = 2
    ∧ (monitorStep monErrEnv 5000 36 ⟨0, false, "", none, 2⟩
      ⟨[], [], [], [], [], [], []⟩).2.1.extendedPauses = [10000]
    ∧ (monitorStep mon3Env 5000 36 ⟨0, false, "", none, 2⟩
      ⟨[], [], [], [], [], [], []⟩).1.consecutiveErrors = 0
    ∧ (monitorStep mon3Env 5000 36 ⟨0, false, "", none, 2⟩
      ⟨[], [], [], [], [], [], []⟩).2.1.extendedPauses = [] := by
  have he := (C7_consecutive_error_accounting monErrEnv 5000 36 ⟨0, false, "", none, 2⟩
    ⟨[], [], [], [], [], [], []⟩).1 "transport error" rfl
  have hs := (C7_consecutive_error_accounting mon3Env 5000 36 ⟨0, false, "", none, 2⟩
    ⟨[], [], [], [], [], [], []⟩).2 ⟨"starting", none⟩ rfl
  refine ⟨?_, ?_, hs.1, ?_⟩
  · rw [he.1]
    norm_num
  · rw [he.2]
    norm_num
  · rw [hs.2]

/-- C8: for every non-terminal iteration (the body did not break and the
loop will run again), the wait recorded before the next iteration equals
`max 0 (targetInterval - elapsed)`, where `targetInterval` is half the
configured interval when the iteration's query failed and the full
configured interval otherwise. -/
theorem C8_timing_correction (env : MonitorEnv) (interval : Rat) (mr : Nat)
    (s : MonitorState) (log : MonitorLog)
    (hsucc : s.deploymentSuccessful = false)
    (hbrk : (monitorStep env interval mr s log).2.2 = false)
    (hnext : s.retryCount + 1 < mr) :
    (monitorStep env interval mr s log).2.1.waits =
      log.waits ++
        [max 0 ((if (env.query s.retryCount).toOption = none then interval / 2 else interval)
          - env.elapsed s.retryCount)] := by
  cases hq : env.query s.retryCount with
  | error e =>
    rw [monitorStep_error env interval mr s log hq]
    simp [hq, hnext, hsucc, Except.toOption]
  | ok cvm =>
    by_cases hrun : jsToLower cvm.status = "running"
    · exfalso
      simp [monitorStep, hq, hrun] at hbrk
    · by_cases hfail : (jsIncludes (jsToLower cvm.status) "error"
        || jsIncludes (jsToLower cvm.status) "fail") = true
      · exfalso
        simp only [monitorStep, hq] at hbrk
        rw [if_neg hrun, if_pos hfail] at hbrk
        simp at hbrk
      · rw [monitorStep_ok_polling env interval mr s log hq hrun
          (by simpa using hfail)]
        simp [hq, hnext, hsucc, Except.toOption]

/-- C8 witness: the timing-correction theorem at a concrete error
iteration (halved target) and a concrete success iteration (full
target). -/
theorem C8_timing_correction_witness :
    (monitorStep monErrEnv 5000 36 ⟨0, false, "", none, 0⟩
      ⟨[], [], [], [], [], [], []⟩).2.1.waits = [max 0 (5000 / 2 - 0)]
    ∧ (monitorStep mon3Env 5000 36 ⟨0, false, "", none, 0⟩
      ⟨[], [], [], [], [], [], []⟩).2.1.waits = [max 0 (5000 - 0)] := by
  constructor
  · have h := C8_timing_correction monErrEnv 5000 36 ⟨0, false, "", none, 0⟩
      ⟨[], [], [], [], [], [], []⟩ rfl rfl (by decide)
    rw [h]
    rfl
  · have h := C8_timing_correction mon3Env 5000 36 ⟨0, false, "", none, 0⟩
      ⟨[], [], [], [], [], [], []⟩ rfl rfl (by decide)
    rw [h]
    rfl

/-! ## Teepod resolution slice of `deploy` (src/core/phala-cloud.ts,
lines 514-536)

`deploy` computes `let teepodId = options.teepodId || 3` and only then
checks `if (!teepodId)`.  The embedding returns the chosen teepod id
together with a flag recording whether `listTeepods` was queried. -/

/-- One entry of the `listTeepods` response as the filter reads it. -/
structure Teepod where
  id : Nat
  available : Bool
  status : String
deriving DecidableEq, Repr

/-- The teepod-resolution slice of `deploy`: `options.teepodId || 3`
(`0` is falsy in JavaScript), then the dead `if (!teepodId)` branch that
would query and filter the teepods.  The Bool records whether
`listTeepods` was invoked. -/
def resolveTeepod (optTeepodId : Option Nat) (listTeepods : Except String (List Teepod)) :
    Except String (Nat × Bool) :=
  let teepodId := match optTeepodId with
    | some t => if t = 0 then 3 else t
    | none => 3
  if teepodId = 0 then
    match listTeepods with
    | .error m => .error ("无法查询可用的teepods: " ++ m)
    | .ok teepods =>
      if teepods.length = 0 then
        .error ("无法查询可用的teepods: " ++ "未找到可用的teepods，请稍后再试")
      else
        match teepods.filter (fun tp => tp.available && tp.status == "online") with
        | [] => .error ("无法查询可用的teepods: " ++ "没有可用的teepods，请稍后再试")
        | tp :: _ => .ok (tp.id, true)
  else .ok (teepodId, false)

/-- C1: the claim says that whenever the caller omits `teepodId`, `deploy`
queries the available teepods, filters them to available-and-online,
picks the first, and fails with no-available-teepod when none qualify,
before the encryption-key request.  The code instead defaults
`teepodId` to 3 (`options.teepodId || 3`), which makes `if (!teepodId)`
unreachable: with no `teepodId` the resolver always returns slot 3 and
never queries `listTeepods`, whatever the teepod list — even when it is
empty or has no available-and-online entry. -/
theorem C1_teepod_default_behavior :
    (∀ lst, resolveTeepod none lst = .ok (3, false))
    ∧ resolveTeepod none (.ok []) = .ok (3, false)
    ∧ resolveTeepod none (.ok [⟨7, false, "offline"⟩]) = .ok (3, false)
    ∧ resolveTeepod none (.error "network down") = .ok (3, false) := by
  refine ⟨fun lst => rfl, rfl, rfl, rfl⟩

/-! ## `executeWithRetry` (src/core/api-client.ts, lines 1296-1329 of the
combined source; class `ApiClient`)

The request function is scripted: `script i` is the outcome of attempt
`i`.  An axios-style error carries an optional response status (`none`
when no response was received).  The delays slept before retries are
returned alongside the result. -/

/-- An axios-style request error: `responseStatus = none` models a
network failure with no response. -/
structure JsHttpError where
  responseStatus : Option Nat
  msg : String
deriving DecidableEq, Repr

/-- The retry condition of the source:
`!err.response || err.response.status >= 500`. -/
def shouldRetry (e : JsHttpError) : Bool :=
  match e.responseStatus with
  | none => true
  | some st => 500 ≤ st

/-- The retry loop of `executeWithRetry`, from attempt `rc`: before every
attempt but the first, sleep `2 ^ rc * 1000` ms; stop on success, retry on
a retryable error while attempts remain, otherwise rethrow the last
error. -/
def executeWithRetryGo {T : Type} (maxRetries : Nat) (script : Nat → Except JsHttpError T)
    (rc : Nat) (delays : List Nat) : Except JsHttpError T × List Nat :=
  let delays2 := if rc > 0 then delays ++ [2 ^ rc * 1000] else delays
  match script rc with
  | .ok v => (.ok v, delays2)
  | .error e =>
    if h : shouldRetry e = true ∧ rc < maxRetries then
      executeWithRetryGo maxRetries script (rc + 1) delays2
    else (.error e, delays2)
termination_by maxRetries + 1 - rc
decreasing_by omega

/-- `executeWithRetry` of `ApiClient`. -/
def executeWithRetry {T : Type} (maxRetries : Nat) (script : Nat → Except JsHttpError T) :
    Except JsHttpError T × List Nat :=
  executeWithRetryGo maxRetries script 0 []

/-- An error the source retries: no response, or a status of at least
500. -/
def retryableErr (e : JsHttpError) : Prop :=
  e.responseStatus = none ∨ ∃ st, e.responseStatus = some st ∧ 500 ≤ st

theorem retryableErr_shouldRetry {e : JsHttpError} (h : retryableErr e) :
    shouldRetry e = true := by
  rcases h with h | ⟨st, h1, h2⟩
  · simp [shouldRetry, h]
  · simp [shouldRetry, h1, h2]

theorem executeWithRetryGo_ok {T : Type} {maxRetries : Nat}
    {script : Nat → Except JsHttpError T} {rc : Nat} {delays : List Nat} {v : T}
    (h : script rc = .ok v) :
    executeWithRetryGo maxRetries script rc delays =
      (.ok v, if rc > 0 then delays ++ [2 ^ rc * 1000] else delays) := by
  rw [executeWithRetryGo.eq_def, h]

theorem executeWithRetryGo_stop {T : Type} {maxRetries : Nat}
    {script : Nat → Except JsHttpError T} {rc : Nat} {delays : List Nat} {e : JsHttpError}
    (h : script rc = .error e) (hs : ¬(shouldRetry e = true ∧ rc < maxRetries)) :
    executeWithRetryGo maxRetries script rc delays =
      (.error e, if rc > 0 then delays ++ [2 ^ rc * 1000] else delays) := by
  rw [executeWithRetryGo.eq_def, h]
  simp only [dif_neg hs]

theorem executeWithRetryGo_retry {T : Type} {maxRetries : Nat}
    {script : Nat → Except JsHttpError T} {rc : Nat} {delays : List Nat} {e : JsHttpError}
    (h : script rc = .error e) (hs : shouldRetry e = true) (hrc : rc < maxRetries) :
    executeWithRetryGo maxRetries script rc delays =
      executeWithRetryGo maxRetries script (rc + 1)
        (if rc > 0 then delays ++ [2 ^ rc * 1000] else delays) := by
  rw [executeWithRetryGo.eq_def, h]
  exact dif_pos ⟨hs, hrc⟩

theorem executeWithRetryGo_all_retryable {T : Type} (maxRetries : Nat)
    (script : Nat → Except JsHttpError T)
    (h : ∀ i ≤ maxRetries, ∃ e, script i = .error e ∧ retryableErr e) :
    ∀ k rc delays eL, rc + k = maxRetries → 1 ≤ rc → script maxRetries = .error eL →
      executeWithRetryGo maxRetries script rc delays =
        (.error eL, delays ++ (List.range' rc (maxRetries + 1 - rc)).map
          (fun i => 2 ^ i * 1000)) := by
  intro k
  induction k with
  | zero =>
    intro rc delays eL hrc h1 hL
    have hrc' : rc = maxRetries := by omega
    subst hrc'
    rw [executeWithRetryGo_stop hL (by omega)]
    rw [if_pos (by omega)]
    rw [show rc + 1 - rc = 1 by omega]
    rfl
  | succ n ih =>
    intro rc delays eL hrc h1 hL
    obtain ⟨e, he, hr⟩ := h rc (by omega)
    rw [executeWithRetryGo_retry he (retryableErr_shouldRetry hr) (by omega)]
    rw [if_pos (by omega)]
    rw [ih (rc + 1) (delays ++ [2 ^ rc * 1000]) eL (by omega) (by omega) hL]
    rw [show maxRetries + 1 - rc = (maxRetries + 1 - (rc + 1)) + 1 by omega]
    rw [List.range']
    simp [List.append_assoc]

/-- C5: through the retrying transport, a client-error response (4xx,
e.g. 404) on the first attempt is surfaced immediately with zero retries
and zero delays; and when every attempt fails with a network error (no
response) or a server error (status at least 500, e.g. 503), the
configured maximum number of retries is performed, each retry preceded by
a delay `2 ^ attempt * 1000` — a strictly increasing, doubling sequence —
and on exhaustion the last error is thrown unchanged. -/
theorem C5_retry_policy {T : Type} (maxRetries : Nat) (script : Nat → Except JsHttpError T) :
    (∀ e st, script 0 = .error e → e.responseStatus = some st → 400 ≤ st → st < 500 →
      executeWithRetry maxRetries script = (.error e, []))
    ∧ (∀ eL, (∀ i ≤ maxRetries, ∃ e, script i = .error e ∧ retryableErr e) →
      script maxRetries = .error eL →
      executeWithRetry maxRetries script =
        (.error eL, (List.range maxRetries).map (fun i => 2 ^ (i + 1) * 1000))
      ∧ List.Pairwise (· < ·) ((List.range maxRetries).map (fun i => 2 ^ (i + 1) * 1000))) := by
  constructor
  · intro e st h0 hst h4 h5
    have hns : shouldRetry e = false := by
      simp [shouldRetry, hst]
      omega
    rw [executeWithRetry, executeWithRetryGo_stop h0 (by simp [hns])]
    rfl
  · intro eL hall hL
    have hmap : (List.range' 1 maxRetries).map (fun i => 2 ^ i * 1000) =
        (List.range maxRetries).map (fun i => 2 ^ (i + 1) * 1000) := by
      rw [List.range'_eq_map_range]
      rw [List.map_map]
      apply List.map_congr_left
      intro a _
      simp [Nat.add_comm]
    constructor
    · cases Nat.eq_zero_or_pos maxRetries with
      | inl h0 =>
        subst h0
        obtain ⟨e, he, hr⟩ := hall 0 (by omega)
        rw [executeWithRetry, executeWithRetryGo_stop he (by omega)]
        rw [he] at hL
        cases hL
        rfl
      | inr hpos =>
        obtain ⟨e, he, hr⟩ := hall 0 (by omega)
        rw [executeWithRetry,
          executeWithRetryGo_retry he (retryableErr_shouldRetry hr) (by omega)]
        rw [if_neg (by omega)]
        rw [executeWithRetryGo_all_retryable maxRetries script hall (maxRetries - 1) 1 [] eL
          (by omega) (by omega) hL]
        rw [show maxRetries + 1 - 1 = maxRetries by omega]
        rw [hmap]
        rfl
    · refine List.Pairwise.map _ ?_ (List.pairwise_lt_range maxRetries)
      intro a b hab
      have hpow : 2 ^ (a + 1) < 2 ^ (b + 1) :=
        Nat.pow_lt_pow_right (by omega) (by omega)
      exact (Nat.mul_lt_mul_right (show 0 < 1000 by omega)).mpr hpow

/-- A request that always gets a 404 response. -/
def script404 : Nat → Except JsHttpError Nat := fun _ => .error ⟨some 404, "not found"⟩

/-- A request that always gets a 503 response. -/
def script503 : Nat → Except JsHttpError Nat := fun _ => .error ⟨some 503, "unavailable"⟩

/-- C5 witness: with `maxRetries = 2`, a 404 is surfaced immediately with
no delays, while a 503 is retried twice with delays 2000 ms then 4000 ms
and the last 503 error is thrown. -/
theorem C5_retry_policy_witness :
    executeWithRetry 2 script404 = (.error ⟨some 404, "not found"⟩, [])
    ∧ executeWithRetry 2 script503 = (.error ⟨some 503, "unavailable"⟩, [2000, 4000]) := by
  constructor
  · exact (C5_retry_policy 2 script404).1 ⟨some 404, "not found"⟩ 404 rfl rfl
      (by omega) (by omega)
  · have h := (C5_retry_policy 2 script503).2 ⟨some 503, "unavailable"⟩
      (fun i _ => ⟨⟨some 503, "unavailable"⟩, rfl, Or.inr ⟨503, rfl, by omega⟩⟩) rfl
    rw [h.1]
    rfl

/-! ## `parseEnv` (src/core/phala-cloud.ts, lines 665-699)

`parseEnv` folds the command-line env entries and then the lines of the
env file into one JavaScript object and returns its entries.  JavaScript
strings are character lists here; the object is an insertion-ordered
association list, which is exactly what `Object.entries` observes. -/

/-- JavaScript `String.prototype.split` with a single-character
separator. -/
def jsSplitOnChar (sep : Char) : List Char → List (List Char)
  | [] => [[]]
  | c :: rest =>
    if c = sep then [] :: jsSplitOnChar sep rest
    else
      match jsSplitOnChar sep rest with
      | s :: ss => (c :: s) :: ss
      | [] => [[c]]

/-- Insertion-ordered JavaScript object with string keys and values. -/
abbrev EnvMap := List (List Char × List Char)

/-- `envVars[key] = value` on a JavaScript object: overwrite in place if
the key exists, append otherwise. -/
def jsObjectSet (m : EnvMap) (k v : List Char) : EnvMap :=
  if (List.any m fun p => p.1 = k) then
    List.map (fun p => if p.1 = k then (p.1, v) else p) m
  else m ++ [(k, v)]

/-- One entry: `if (line.includes("="))` then `const [key, value] =
line.split("=")` and keep it only when both `key` and `value` are
truthy (non-empty). -/
def parseEnvLine (line : List Char) : Option (List Char × List Char) :=
  match jsSplitOnChar '=' line with
  | k :: v :: _ => if k ≠ [] ∧ v ≠ [] then some (k, v) else none
  | _ => none

/-- Fold entries into the object, later entries overriding earlier ones. -/
def parseEnvFold (lines : List (List Char)) (m : EnvMap) : EnvMap :=
  lines.foldl
    (fun acc line =>
      match parseEnvLine line with
      | some (k, v) => jsObjectSet acc k v
      | none => acc) m

/-- `parseEnv`: parse the env array first, then the lines of the env file
(when present), and return the object's entries. -/
def parseEnv (envs : List (List Char)) (envFile : Option (List Char)) : EnvMap :=
  let m := parseEnvFold envs []
  match envFile with
  | some content => parseEnvFold (jsSplitOnChar '\n' content) m
  | none => m

theorem jsSplitOnChar_ne_nil (sep : Char) (l : List Char) : jsSplitOnChar sep l ≠ [] := by
  cases l with
  | nil => simp [jsSplitOnChar]
  | cons c rest =>
    simp only [jsSplitOnChar]
    split_ifs
    · simp
    · split <;> simp

theorem jsSplitOnChar_no_sep {sep : Char} {l : List Char} (h : sep ∉ l) :
    jsSplitOnChar sep l = [l] := by
  induction l with
  | nil => rfl
  | cons c rest ih =>
    have hc : c ≠ sep := fun hcontra => h (hcontra ▸ List.mem_cons_self c rest)
    have hrest : sep ∉ rest := fun hcontra => h (List.mem_cons_of_mem c hcontra)
    simp only [jsSplitOnChar, if_neg hc, ih hrest]

theorem jsSplitOnChar_append {sep : Char} {k : List Char} (r : List Char) (h : sep ∉ k) :
    jsSplitOnChar sep (k ++ sep :: r) = k :: jsSplitOnChar sep r := by
  induction k with
  | nil => simp [jsSplitOnChar]
  | cons c rest ih =>
    have hc : c ≠ sep := fun hcontra => h (hcontra ▸ List.mem_cons_self c rest)
    have hrest : sep ∉ rest := fun hcontra => h (List.mem_cons_of_mem c hcontra)
    show jsSplitOnChar sep (c :: (rest ++ sep :: r)) = (c :: rest) :: jsSplitOnChar sep r
    simp only [jsSplitOnChar, if_neg hc]
    rw [ih hrest]

/-- C9: in `parseEnv`, an entry `K=V1=V2` keeps only the substring between
the first and second `=` as the value (everything after the second `=` is
silently discarded); entries with no `=`, an empty key, or an empty value
are silently dropped; and when the same key appears in both the env array
and the env file, the file's value wins because the file is parsed last. -/
theorem C9_parse_env :
    (∀ k v1 v2 : List Char, '=' ∉ k → '=' ∉ v1 → k ≠ [] → v1 ≠ [] →
      parseEnvLine (k ++ '=' :: (v1 ++ '=' :: v2)) = some (k, v1))
    ∧ (∀ l : List Char, '=' ∉ l → parseEnvLine l = none)
    ∧ (∀ r : List Char, parseEnvLine ('=' :: r) = none)
    ∧ (∀ k : List Char, '=' ∉ k → parseEnvLine (k ++ ['=']) = none)
    ∧ (∀ k v1 v2 : List Char, '=' ∉ k → '=' ∉ v1 → '=' ∉ v2 →
        '\n' ∉ k → '\n' ∉ v2 → k ≠ [] → v1 ≠ [] → v2 ≠ [] →
        parseEnv [k ++ '=' :: v1] (some (k ++ '=' :: v2)) = [(k, v2)]) := by
  refine ⟨?_, ?_, ?_, ?_, ?_⟩
  · intro k v1 v2 hk hv1 hk0 hv0
    rw [parseEnvLine, jsSplitOnChar_append (v1 ++ '=' :: v2) hk,
      jsSplitOnChar_append v2 hv1]
    simp [hk0, hv0]
  · intro l hl
    rw [parseEnvLine, jsSplitOnChar_no_sep hl]
  · intro r
    rw [parseEnvLine, show ('=' :: r : List Char) = [] ++ '=' :: r from rfl,
      jsSplitOnChar_append r (by simp)]
    rcases hsp : jsSplitOnChar '=' r with _ | ⟨s, ss⟩
    · exact absurd hsp (jsSplitOnChar_ne_nil '=' r)
    · simp
  · intro k hk
    rw [parseEnvLine, show (k ++ ['='] : List Char) = k ++ '=' :: [] from rfl,
      jsSplitOnChar_append [] hk]
    simp [jsSplitOnChar]
  · intro k v1 v2 hk hv1 hv2 hnk hnv2 hk0 hv10 hv20
    have hline1 : parseEnvLine (k ++ '=' :: v1) = some (k, v1) := by
      rw [parseEnvLine, show (k ++ '=' :: v1 : List Char) = k ++ '=' :: v1 from rfl,
        jsSplitOnChar_append v1 hk, jsSplitOnChar_no_sep hv1]
      simp [hk0, hv10]
    have hline2 : parseEnvLine (k ++ '=' :: v2) = some (k, v2) := by
      rw [parseEnvLine, jsSplitOnChar_append v2 hk, jsSplitOnChar_no_sep hv2]
      simp [hk0, hv20]
    have hfile : jsSplitOnChar '\n' (k ++ '=' :: v2) = [k ++ '=' :: v2] :=
      jsSplitOnChar_no_sep (by
        intro hmem
        rcases List.mem_append.mp hmem with h | h
        · exact hnk h
        · rcases List.mem_cons.mp h with h | h
          · cases h
          · exact hnv2 h)
    have hinner : parseEnvFold [k ++ '=' :: v1] [] = [(k, v1)] := by
      simp only [parseEnvFold, List.foldl_cons, List.foldl_nil, hline1]
      rfl
    rw [parseEnv, hfile]
    show parseEnvFold [k ++ '=' :: v2] (parseEnvFold [k ++ '=' :: v1] []) = [(k, v2)]
    rw [hinner]
    simp only [parseEnvFold, List.foldl_cons, List.foldl_nil, hline2]
    rw [jsObjectSet, if_pos (by simp)]
    simp

/-- C9 witness: `A=B=C` keeps only `B`; `X` (no `=`), `=V` (empty key) and
`K=` (empty value) are dropped; with `K=a` in the env array and `K=b` in
the env file, the file's `b` wins. -/
theorem C9_parse_env_witness :
    parseEnvLine ['A', '=', 'B', '=', 'C'] = some (['A'], ['B'])
    ∧ parseEnvLine ['X'] = none
    ∧ parseEnvLine ['=', 'V'] = none
    ∧ parseEnvLine ['K', '='] = none
    ∧ parseEnv [['K', '=', 'a']] (some ['K', '=', 'b']) = [(['K'], ['b'])] :=
  ⟨C9_parse_env.1 ['A'] ['B'] ['C'] (by decide) (by decide) (by decide) (by decide),
   C9_parse_env.2.1 ['X'] (by decide),
   C9_parse_env.2.2.1 ['V'],
   C9_parse_env.2.2.2.1 ['K'] (by decide),
   C9_parse_env.2.2.2.2 ['K'] ['a'] ['b'] (by decide) (by decide) (by decide) (by decide)
     (by decide) (by decide) (by decide) (by decide)⟩

/-! ## Encrypted-env assembly of `upgrade` (lines 639-651) and
`updateCompose` (lines 1018-1031)

Both guard encryption with
`options.envs && options.envs.length > 0 && cvm.encrypted_env_pubkey`;
when the fetched deployment record has no (or an empty) encryption
public key, `encrypted_env` stays the empty string and the request is
submitted anyway. -/

/-- JavaScript truthiness of an optional string field: missing and empty
strings are falsy. -/
def jsTruthyStr : Option String → Bool
  | none => false
  | some s => s ≠ ""

/-- The `encrypted_env` computation of `upgrade`: encrypt only when there
are env entries and the CVM record carries a truthy
`encrypted_env_pubkey`; otherwise keep the empty string and proceed. -/
def upgradeEncryptedEnv (encryptFn : List Env → String → Except String String)
    (envs : List Env) (encrypted_env_pubkey : Option String) : Except String String :=
  if 0 < envs.length ∧ jsTruthyStr encrypted_env_pubkey = true then
    encryptFn envs (encrypted_env_pubkey.getD "")
  else .ok ""

/-- The `encrypted_env` computation of `updateCompose`; the guard is the
same as in `upgrade`. -/
def updateComposeEncryptedEnv (encryptFn : List Env → String → Except String String)
    (envs : List Env) (encrypted_env_pubkey : Option String) : Except String String :=
  if 0 < envs.length ∧ jsTruthyStr encrypted_env_pubkey = true then
    encryptFn envs (encrypted_env_pubkey.getD "")
  else .ok ""

/-- C10: for every non-empty secret set, when the fetched deployment
record's `encrypted_env_pubkey` is missing or empty, both `upgrade` and
`updateCompose` skip encryption silently — whatever the encryption
function would do — and proceed with an empty `encrypted_env`, so the new
secrets are dropped without any error surfaced to the caller. -/
theorem C10_upgrade_skips_encryption (encryptFn : List Env → String → Except String String)
    (envs : List Env) (pk : Option String)
    (hne : envs ≠ []) (hpk : pk = none ∨ pk = some "") :
    upgradeEncryptedEnv encryptFn envs pk = .ok ""
    ∧ updateComposeEncryptedEnv encryptFn envs pk = .ok "" := by
  have hfalse : jsTruthyStr pk = false := by
    rcases hpk with h | h <;> simp [jsTruthyStr, h]
  constructor
  · rw [upgradeEncryptedEnv, if_neg (by simp [hfalse])]
  · rw [updateComposeEncryptedEnv, if_neg (by simp [hfalse])]

/-- C10 witness: a would-fail encryption function is never invoked — with
a missing or empty key the result is the empty encrypted-env and no
error. -/
theorem C10_upgrade_skips_encryption_witness :
    upgradeEncryptedEnv (fun _ _ => .error "never called") [⟨"K", "V"⟩] none = .ok ""
    ∧ updateComposeEncryptedEnv (fun _ _ => .error "never called") [⟨"K", "V"⟩]
        (some "") = .ok "" :=
  ⟨(C10_upgrade_skips_encryption (fun _ _ => .error "never called") [⟨"K", "V"⟩] none
      (by simp) (Or.inl rfl)).1,
   (C10_upgrade_skips_encryption (fun _ _ => .error "never called") [⟨"K", "V"⟩] (some "")
      (by simp) (Or.inr rfl)).2⟩
